import Mathlib

/-!
Verification development for the enterprise_rag retrieval-quality pipeline.

The Python sources under `src/api/services/` and `src/api/routers/` are
shallowly embedded here:
* `text_splitter.py` (`TextSplitter`) — chunking, on `List Char`;
* `llm_service.py` (`LLMService.calculate_confidence`) — confidence scoring,
  on `List ℚ`;
* `evaluation_service.py` (`EvaluationService`) — precision/recall/F1 and
  the AI-assisted audit path;
* `routers/medical.py` (`medical_chat`) — threshold filtering, citation
  deduplication and response assembly.

Python `float` arithmetic is modelled with `ℚ`; Python `str` with
`List Char` (for the chunker, whose claims are about character counts) or
`String`.  Machine-level float rounding is not modelled; all the arithmetic
involved is exact at the granularity the claims mention.
-/

namespace EnterpriseRag

/-! ### Evaluation metrics (`EvaluationService.calculate_metrics`) -/

/-- Number of distinct retrieved documents that occur in the ground-truth
list: the cardinality of `set(retrieved_docs) & set(ground_truth_docs)`
from `evaluation_service.py` line 65. -/
def relevantCount (retrieved ground : List String) : Nat :=
  ((retrieved.dedup).filter (fun d => decide (d ∈ ground))).length

/-- `EvaluationService.calculate_metrics` (evaluation_service.py lines 43-80).
Returns `(precision, recall, f1_score)`.  The two leading guards return
`(0,0,0)` when either list is empty; afterwards both lists are non-empty, so
the inline `if retrieved_docs else 0.0` guards of lines 69 and 72 are
unreachable and the divisions are taken directly. -/
def calculate_metrics (retrieved ground : List String) : ℚ × ℚ × ℚ :=
  if retrieved.isEmpty then (0, 0, 0)
  else if ground.isEmpty then (0, 0, 0)
  else
    let relevant : ℚ := relevantCount retrieved ground
    let p : ℚ := relevant / retrieved.length
    let r : ℚ := relevant / ground.length
    let f1 : ℚ := if p + r = 0 then 0 else 2 * (p * r) / (p + r)
    (p, r, f1)

/-- Precision as the specification words it: `|setIntersection| / |retrieved|`,
`0.0` when `retrieved` is empty. -/
def precisionSpec (retrieved ground : List String) : ℚ :=
  if retrieved.isEmpty then 0 else relevantCount retrieved ground / retrieved.length

/-- Recall as the specification words it: `|setIntersection| / |groundTruth|`,
`0.0` when `groundTruth` is empty. -/
def recallSpec (retrieved ground : List String) : ℚ :=
  if ground.isEmpty then 0 else relevantCount retrieved ground / ground.length

/-- F1 as the specification words it: `2·p·r/(p+r)`, `0.0` when `p + r = 0`. -/
def f1Spec (retrieved ground : List String) : ℚ :=
  let p := precisionSpec retrieved ground
  let r := recallSpec retrieved ground
  if p + r = 0 then 0 else 2 * (p * r) / (p + r)

/-! ### Confidence scoring (`LLMService.calculate_confidence`) -/

/-- Python's two-argument `max` (kept kernel-computable; agrees with `max`). -/
def pymax (a b : ℚ) : ℚ := if a ≤ b then b else a

/-- Python's two-argument `min` (kept kernel-computable; agrees with `min`). -/
def pymin (a b : ℚ) : ℚ := if a ≤ b then a else b

/-- Round-half-to-even to the nearest integer, the convention of Python's
built-in `round`.  (Python rounds the binary float; every value the claims
exercise is exact at two decimals, where the two conventions agree.) -/
def pyRoundInt (x : ℚ) : ℤ :=
  let f := ⌊x⌋
  let r := x - f
  if r < 1/2 then f
  else if 1/2 < r then f + 1
  else if Even f then f else f + 1

/-- Python's `round(x, 2)`. -/
def pyRound2 (x : ℚ) : ℚ := (pyRoundInt (x * 100) : ℚ) / 100

/-- `LLMService.calculate_confidence` (llm_service.py lines 149-177):
empty distance list ⇒ `0.0`; otherwise similarity `max(0, 1 - min/2)`,
a `+0.1` bonus capped at `1.0` when at least two distances are `< 0.5`,
rounded to two decimals. -/
def calculate_confidence (distances : List ℚ) : ℚ :=
  match distances with
  | [] => 0
  | d :: rest =>
    let minDistance := rest.foldl pymin d
    let similarity := pymax 0 (1 - minDistance / 2)
    let highQualityMatches := (distances.filter (fun x => decide (x < 1/2))).length
    let similarity := if 2 ≤ highQualityMatches then pymin 1 (similarity + 1/10) else similarity
    pyRound2 similarity

/-- The confidence formula as the specification words it:
`round(min(1.0, clamp(1 − minDistance/2, 0, 1) + bonus), 2)` with a `+0.1`
bonus when at least two distances are strictly below `0.5`. -/
def confidenceSpec (distances : List ℚ) : ℚ :=
  match distances with
  | [] => 0
  | d :: rest =>
    let minDistance := rest.foldl pymin d
    let base := pymax 0 (pymin 1 (1 - minDistance / 2))
    let bonus : ℚ :=
      if 2 ≤ (distances.filter (fun x => decide (x < 1/2))).length then 1/10 else 0
    pyRound2 (pymin 1 (base + bonus))

/-! ### Medical chat endpoint (`routers/medical.py`, `medical_chat`) -/

/-- The metadata fields of a hit that `medical_chat` reads.  In the repository
every stored chunk's metadata carries `category`, `department` and `id`
(init_data.py lines 134-140, knowledge.py line 161); `id` is the source
document id, read by `meta.get('id', '')`, with `""` standing for a missing
value. -/
structure HitMeta where
  category : String
  department : String
  id : String
deriving DecidableEq

/-- `Reference` response model (medical.py lines 41-47). -/
structure Reference where
  title : String
  author : String
  department : String
  evidence_level : String
  url : Option String
deriving DecidableEq

/-- `ChatResponse` fields computed by `medical_chat` (medical.py lines 50-56;
the debug-only `_rag_details` payload is not modelled). -/
structure ChatResponse where
  answer : String
  references : List Reference
  confidence : ℚ
  similar_queries : List String
deriving DecidableEq

/-- Truncating three-way zip, as Python's `zip(documents, metadatas, distances)`. -/
def zip3 : List String → List HitMeta → List ℚ → List (String × HitMeta × ℚ)
  | doc :: ds, meta :: ms, dist :: qs => (doc, meta, dist) :: zip3 ds ms qs
  | _, _, _ => []

/-- The filtering loop of `medical_chat` (medical.py lines 118-128): keep a
hit when `1.0 - dist ≥ SIMILARITY_THRESHOLD`, building the three parallel
lists `filtered_docs`, `filtered_metas`, `filtered_dists`. -/
def filterLoop (thr : ℚ) : List (String × HitMeta × ℚ) → List String × List HitMeta × List ℚ
  | [] => ([], [], [])
  | (doc, meta, dist) :: rest =>
    let (ds, ms, qs) := filterLoop thr rest
    if thr ≤ 1 - dist then (doc :: ds, meta :: ms, dist :: qs) else (ds, ms, qs)

/-- The `Reference` built for one metadata record (medical.py lines 199-205). -/
def mkReference (m : HitMeta) : Reference :=
  { title := "文档 " ++ m.id
    author := "医疗知识库"
    department := m.department
    evidence_level := "A"
    url := none }

/-- The citation-building loop of `medical_chat` (medical.py lines 192-205):
walk the filtered metadata in order, keeping a record only when its `id` is
truthy (non-empty) and not in the `unique_docs` set accumulated so far. -/
def dedupRefsAux (seen : List String) : List HitMeta → List Reference
  | [] => []
  | m :: rest =>
    if m.id ≠ "" ∧ m.id ∉ seen then mkReference m :: dedupRefsAux (m.id :: seen) rest
    else dedupRefsAux seen rest

/-- Citation list before `max_results` truncation. -/
def dedupRefs (metas : List HitMeta) : List Reference := dedupRefsAux [] metas

/-- First occurrence per document id, in first-seen order — the wording of the
specification's reference-deduplication rule, written independently of the
accumulator loop: keep the head, drop every later record with the same id,
recurse. -/
def keepFirstById : List HitMeta → List HitMeta
  | [] => []
  | m :: rest => m :: keepFirstById (rest.filter (fun x => x.id ≠ m.id))
termination_by l => l.length
decreasing_by
  simp only [List.length_cons]
  exact Nat.lt_succ_of_le (List.length_filter_le _ _)

/-- Substring test, Python's `needle in haystack` on strings. -/
def containsSub (needle haystack : String) : Bool :=
  decide (needle.data <:+: haystack.data)

/-- `_generate_similar_queries` (medical.py lines 389-414); the
`context_docs` parameter is accepted but never read by the source. -/
def generate_similar_queries (query : String) (_context_docs : List String) : List String :=
  let qs : List String :=
    if containsSub "饮食" query then
      if containsSub "高血压" query then ["高血压吃什么", "高血压饮食禁忌", "高血压日常饮食"]
      else if containsSub "糖尿病" query then ["糖尿病吃什么", "糖尿病饮食指南", "糖尿病饮食禁忌"]
      else []
    else if containsSub "症状" query || containsSub "预防" query then
      if containsSub "冠心病" query then ["冠心病早期表现", "冠心病怎么预防", "冠心病注意事项"]
      else if containsSub "高血压" query then ["高血压早期症状", "高血压并发症", "高血压日常护理"]
      else []
    else []
  qs.take 5

/-- Answer returned when the index yields no documents (medical.py line 108). -/
def noDocsAnswer : String :=
  "抱歉，在当前知识库中没有找到相关的医疗建议。建议您咨询专业医生或提供更具体的问题。"

/-- Answer returned when no hit passes the similarity filter (medical.py line 132). -/
def noRelevantAnswer : String :=
  "抱歉，没有找到足够相关的医疗建议。建议您尝试其他关键词或咨询专业医生。"

/-- The retrieval-scoring core of `medical_chat` (medical.py lines 106-225),
parameterised by the opaque answer generator `genAnswer` (the
`LLMService.generate_answer` collaborator; the specification treats free-text
answer composition as an external black box).  Mirrors, in order: the
empty-result early return, the similarity filter, the filtered-empty early
return, answer generation over the full filtered document list, citation
deduplication, confidence over the full filtered distance list, and
`max_results` truncation of the citation list alone. -/
def medical_chat (genAnswer : String → List String → String) (query : String)
    (maxResults : Nat) (thr : ℚ)
    (documents : List String) (metadatas : List HitMeta) (distances : List ℚ) :
    ChatResponse :=
  if documents.isEmpty then
    { answer := noDocsAnswer, references := [], confidence := 0, similar_queries := [] }
  else
    let (fd, fm, fq) := filterLoop thr (zip3 documents metadatas distances)
    if fd.isEmpty then
      { answer := noRelevantAnswer, references := [], confidence := 0, similar_queries := [] }
    else
      { answer := genAnswer query fd
        references := (dedupRefs fm).take maxResults
        confidence := calculate_confidence fq
        similar_queries := generate_similar_queries query fd }

/-! ### AI-assisted audit (`EvaluationService._ai_evaluate` and helpers) -/

/-- JSON values, the shape of what `json.loads` can hand back. -/
inductive JsonVal where
  | null : JsonVal
  | bool : Bool → JsonVal
  | num : ℚ → JsonVal
  | str : String → JsonVal
  | arr : List JsonVal → JsonVal
  | obj : List (String × JsonVal) → JsonVal

/-- The text-generator collaborator interface.  `_ai_evaluate` calls the
attribute `_generate_raw_answer` on it; `none` models a collaborator object
that does not define that attribute (the lookup raises `AttributeError`),
and a present function may itself fail (`Except.error`). -/
structure TextGen where
  generateRawAnswer : Option (String → Except String String)

/-- The repository's bundled `LLMService` (llm_service.py lines 12-177) seen
through the `TextGen` interface: the class defines `generate_answer`,
`_generate_rule_based_answer` and `calculate_confidence` but no
`_generate_raw_answer`, so the attribute is absent. -/
def theLLMService : TextGen := ⟨none⟩

/-- `'\x7b'`, written via its code point. -/
def lbrace : Char := Char.ofNat 123

/-- `'\x7d'`, written via its code point. -/
def rbrace : Char := Char.ofNat 125

/-- Index of the first occurrence of `c`. -/
def firstIdxOf (c : Char) : List Char → Option Nat
  | [] => none
  | a :: rest => if a = c then some 0 else (firstIdxOf c rest).map (· + 1)

/-- Index of the last occurrence of `c`. -/
def lastIdxOf (c : Char) : List Char → Option Nat
  | [] => none
  | a :: rest =>
    match lastIdxOf c rest with
    | some k => some (k + 1)
    | none => if a = c then some 0 else none

/-- `re.search(r'\x7b.*\x7d', response, re.DOTALL)` of
`_parse_ai_response` (evaluation_service.py line 211): with `.` matching
newlines, the leftmost-greedy match runs from the first opening brace to the
last closing brace after it; `none` when no such span exists. -/
def extractJson (s : List Char) : Option (List Char) :=
  match firstIdxOf lbrace s, lastIdxOf rbrace s with
  | some i, some j => if i < j then some ((s.drop i).take (j - i + 1)) else none
  | _, _ => none

/-- `data.get(key, default)` on a parsed JSON object. -/
def dictGet (d : List (String × JsonVal)) (key : String) (dflt : JsonVal) : JsonVal :=
  match d.find? (fun p => p.1 == key) with
  | some p => p.2
  | none => dflt

/-- `EvaluationService._parse_ai_response` (evaluation_service.py lines
207-225), parameterised by `jsonParse`, the opaque `json.loads` collaborator
(`none` covers both a JSON parse error and a non-object top level, either of
which ends in the `except` branch).  Returns `(rating, comment,
relevance_labels)`. -/
def parse_ai_response (jsonParse : List Char → Option (List (String × JsonVal)))
    (response : String) : JsonVal × JsonVal × JsonVal :=
  match extractJson response.data with
  | none => (.str "N/A", .str "AI 返回格式错误", .obj [])
  | some jtext =>
    match jsonParse jtext with
    | none => (.str "N/A", .str "解析失败", .obj [])
    | some data =>
      (dictGet data "rating" (.str "N/A"),
       dictGet data "comment" (.str ""),
       dictGet data "relevance_labels" (.obj []))

/-- The `[文档 i] doc` enumeration lines of the evaluation prompt. -/
def enumDocs : Nat → List String → String
  | _, [] => ""
  | i, d :: rest => "\n[文档 " ++ toString i ++ "] " ++ d ++ "\n" ++ enumDocs (i + 1) rest

/-- `EvaluationService._build_evaluation_prompt` (evaluation_service.py lines
165-205). -/
def build_evaluation_prompt (query : String) (retrieved ground : List String) : String :=
  "你是一个专业的信息检索评估专家。请评估以下检索结果的质量。\n\n**查询问题：**\n"
  ++ query
  ++ "\n\n**检索到的文档（" ++ toString retrieved.length ++ " 个）：**\n"
  ++ enumDocs 1 retrieved
  ++ "\n**真实相关文档（" ++ toString ground.length ++ " 个）：**\n"
  ++ enumDocs 1 ground
  ++ "\n请从以下几个维度进行评估：\n\n"
  ++ "1. **相关性标注**：对于每个检索到的文档，判断它是否与查询相关（true/false）\n"
  ++ "2. **总体评分**：根据检索质量给出评分（优秀/良好/中等/较差/很差）\n"
  ++ "3. **详细评论**：说明评分理由，指出优点和不足\n\n"
  ++ "请按以下 JSON 格式输出（只返回 JSON，不要其他内容）：\n"
  ++ "\x7b\n  \"relevance_labels\": \x7b\n    \"文档 1\": true,\n    \"文档 2\": false,\n    ...\n  \x7d,\n"
  ++ "  \"rating\": \"优秀\",\n  \"comment\": \"详细评论内容...\"\n\x7d\n"

/-- `EvaluationService._ai_evaluate` (evaluation_service.py lines 130-163).
Every exception of the body — the missing `_generate_raw_answer` attribute,
a raising collaborator — lands in the `except` clause, which returns the
`("N/A", diagnostic, empty-dict)` sentinel. -/
def ai_evaluate (llm : TextGen) (jsonParse : List Char → Option (List (String × JsonVal)))
    (query : String) (retrieved ground : List String) : JsonVal × JsonVal × JsonVal :=
  match llm.generateRawAnswer with
  | none => (.str "N/A", .str "AI 评估失败: AttributeError", .obj [])
  | some gen =>
    match gen (build_evaluation_prompt query retrieved ground) with
    | .error e => (.str "N/A", .str ("AI 评估失败: " ++ e), .obj [])
    | .ok response => parse_ai_response jsonParse response

/-- The `EvaluationResult` dataclass (evaluation_service.py lines 15-28).
`relevant_retrieved` and `missed_docs` come from Python sets, whose iteration
order is unspecified; they are modelled in first-occurrence order. -/
structure EvaluationResult where
  query : String
  retrieved_docs : List String
  ground_truth_docs : List String
  relevant_retrieved : List String
  missed_docs : List String
  precision : ℚ
  recallScore : ℚ   -- the dataclass field `recall`; `recall` is a Lean keyword
  f1_score : ℚ
  ai_rating : Option JsonVal
  ai_comment : Option JsonVal
  ai_relevance_labels : Option JsonVal

/-- `EvaluationService.evaluate_retrieval` (evaluation_service.py lines
82-128): compute the base metrics, fill the result record, and only when
`use_ai_rating` is set and an LLM collaborator is present run the AI pass
and store its three outputs. -/
def evaluate_retrieval (llm : Option TextGen)
    (jsonParse : List Char → Option (List (String × JsonVal)))
    (query : String) (retrieved ground : List String) (useAiRating : Bool) :
    EvaluationResult :=
  let m := calculate_metrics retrieved ground
  let base : EvaluationResult :=
    { query := query
      retrieved_docs := retrieved
      ground_truth_docs := ground
      relevant_retrieved := (retrieved.dedup).filter (fun d => decide (d ∈ ground))
      missed_docs := (ground.dedup).filter (fun d => decide (d ∉ retrieved))
      precision := m.1
      recallScore := m.2.1
      f1_score := m.2.2
      ai_rating := none
      ai_comment := none
      ai_relevance_labels := none }
  match useAiRating, llm with
  | true, some tg =>
    let a := ai_evaluate tg jsonParse query retrieved ground
    { base with ai_rating := some a.1, ai_comment := some a.2.1, ai_relevance_labels := some a.2.2 }
  | _, _ => base

/-- The three failure modes of the audit path named by the claim: the
collaborator raises (or lacks the method), the response holds no
brace-delimited JSON span, or the JSON fails to parse. -/
def aiPathFails (llm : TextGen) (jsonParse : List Char → Option (List (String × JsonVal)))
    (query : String) (retrieved ground : List String) : Prop :=
  llm.generateRawAnswer = none ∨
  ∃ gen, llm.generateRawAnswer = some gen ∧
    ((∃ e, gen (build_evaluation_prompt query retrieved ground) = .error e) ∨
     (∃ resp, gen (build_evaluation_prompt query retrieved ground) = .ok resp ∧
        (extractJson resp.data = none ∨
         ∃ j, extractJson resp.data = some j ∧ jsonParse j = none)))

/-! ### Chunker (`text_splitter.py`, `TextSplitter`)

Text is modelled as `List Char`.  `TextSplitter` is instantiated throughout
the repository with `chunk_size = 500`, `chunk_overlap = 50`; the
`min_length` of `_merge_short_paragraphs` defaults to `50` and the final
filter hard-codes `20`.  Whitespace is the ASCII whitespace repertoire
(every character the repository's texts use); Python's `str.strip` and the
regex class `\s` additionally cover rarer Unicode whitespace, none of which
occurs in the sources or affects the claims. -/

/-- Whitespace, as Python's `str.strip()` / regex `\s` see it. -/
def isPyWS (c : Char) : Bool :=
  c = ' ' || c = '\t' || c = '\n' || c = '\r' || c = '\x0b' || c = '\x0c'

/-- ASCII decimal digit, the regex class `\d`. -/
def isAsciiDigit (c : Char) : Bool := '0' ≤ c && c ≤ '9'

/-- Python's `str.strip()`: drop whitespace from both ends. -/
def trim (l : List Char) : List Char :=
  ((l.dropWhile isPyWS).reverse.dropWhile isPyWS).reverse

/-- `re.sub(r'[ \t]+', ' ', text)` (text_splitter.py line 86): each maximal
run of spaces/tabs becomes a single space.  `inRun` records whether the
previous character belonged to such a run. -/
def collapseSpacesAux : Bool → List Char → List Char
  | _, [] => []
  | inRun, c :: rest =>
    if c = ' ' || c = '\t' then
      if inRun then collapseSpacesAux true rest else ' ' :: collapseSpacesAux true rest
    else c :: collapseSpacesAux false rest

/-- `re.sub(r'[ \t]+', ' ', text)`. -/
def collapseSpaces (l : List Char) : List Char := collapseSpacesAux false l

/-- `re.sub(r'\n{3,}', '\n\n', text)` (line 89): each maximal run of `k`
newlines becomes `min k 2` newlines (runs of one or two are untouched).
Fuel-indexed; every step consumes at least one character, so fuel
`l.length` suffices. -/
def collapseNewlinesAux : Nat → List Char → List Char
  | 0, _ => []
  | _, [] => []
  | fuel + 1, c :: rest =>
    if c = '\n' then
      let run := rest.takeWhile (fun d => d = '\n')
      List.replicate (min (run.length + 1) 2) '\n' ++ collapseNewlinesAux fuel (rest.drop run.length)
    else c :: collapseNewlinesAux fuel rest

/-- `re.sub(r'\n{3,}', '\n\n', text)`. -/
def collapseNewlines (l : List Char) : List Char := collapseNewlinesAux l.length l

/-- One attempted match of `r'\n\s*\d+\s*\n'` (line 95) at the head of `l`,
returning the length of the leftmost-greedy match if any.  Backtracking
resolves as: the first `\s*` must take its whole maximal run (a digit never
matches `\s`), `\d+` takes its maximal run (a newline never matches `\d`),
and the trailing `\s*\n` ends at the last newline of the following
whitespace run. -/
def pageMatchLen (l : List Char) : Option Nat :=
  match l with
  | [] => none
  | c :: rest =>
    if c = '\n' then
      let ws1 := rest.takeWhile isPyWS
      let r1 := rest.drop ws1.length
      let ds := r1.takeWhile isAsciiDigit
      if ds.isEmpty then none
      else
        let r2 := r1.drop ds.length
        let ws2 := r2.takeWhile isPyWS
        match lastIdxOf '\n' ws2 with
        | some k => some (1 + ws1.length + ds.length + (k + 1))
        | none => none
    else none

/-- `re.sub(r'\n\s*\d+\s*\n', '\n', text)`: left-to-right scan, each match
replaced by a single newline, scanning resuming after the matched span. -/
def removePageNumsAux : Nat → List Char → List Char
  | 0, _ => []
  | _, [] => []
  | fuel + 1, c :: rest =>
    match pageMatchLen (c :: rest) with
    | some n => '\n' :: removePageNumsAux fuel ((c :: rest).drop n)
    | none => c :: removePageNumsAux fuel rest

/-- `re.sub(r'\n\s*\d+\s*\n', '\n', text)`. -/
def removePageNums (l : List Char) : List Char := removePageNumsAux l.length l

/-- `TextSplitter._preprocess_text` (lines 75-97): collapse space/tab runs,
collapse newline runs of three or more, delete carriage returns, delete
page-number lines, then strip. -/
def preprocess (text : List Char) : List Char :=
  trim (removePageNums ((collapseNewlines (collapseSpaces text)).filter (fun c => c != '\r')))

/-- `re.split(r'\n{2,}', cleaned_text)` (line 51): cut at each maximal run of
two or more newlines; single newlines stay inside their segment.  Like
`re.split`, the result always has at least one (possibly empty) segment. -/
def splitNl2Aux : Nat → List Char → List Char → List (List Char)
  | 0, acc, _ => [acc.reverse]
  | _, acc, [] => [acc.reverse]
  | fuel + 1, acc, c :: rest =>
    if c = '\n' then
      let run := rest.takeWhile (fun d => d = '\n')
      if 1 ≤ run.length then acc.reverse :: splitNl2Aux fuel [] (rest.drop run.length)
      else splitNl2Aux fuel ('\n' :: acc) rest
    else splitNl2Aux fuel (c :: acc) rest

/-- `re.split(r'\n{2,}', cleaned_text)`. -/
def splitNl2 (l : List Char) : List (List Char) := splitNl2Aux l.length [] l

/-- CJK numeral, the class `[一二三四五六七八九十]`. -/
def isCjkNum (c : Char) : Bool :=
  ['一', '二', '三', '四', '五', '六', '七', '八', '九', '十'].contains c

/-- Uppercase ASCII letter. -/
def isUpperAZ (c : Char) : Bool := 'A' ≤ c && c ≤ 'Z'

/-- `r'^第[一二三四五六七八九十\d]+[章节篇]'`. -/
def headChapter (t : List Char) : Bool :=
  match t with
  | [] => false
  | c :: rest =>
    if c = '第' then
      let nums := rest.takeWhile (fun d => isCjkNum d || isAsciiDigit d)
      if nums.isEmpty then false
      else
        match rest.drop nums.length with
        | d :: _ => d = '章' || d = '节' || d = '篇'
        | [] => false
    else false

/-- `r'^[一二三四五六七八九十]+、'`. -/
def headCjkEnum (t : List Char) : Bool :=
  let nums := t.takeWhile isCjkNum
  !nums.isEmpty &&
    (match t.drop nums.length with
     | d :: _ => d = '、'
     | [] => false)

/-- `r'^\d+[\.\.]'` (the class `[\.\.]` is just a full stop). -/
def headNumDot (t : List Char) : Bool :=
  let ds := t.takeWhile isAsciiDigit
  !ds.isEmpty &&
    (match t.drop ds.length with
     | d :: _ => d = '.'
     | [] => false)

/-- `r'^[A-Z][A-Z\s]+$'` on an already-stripped string: an uppercase letter
followed by one or more uppercase letters or whitespace, to the end. -/
def headAllCaps (t : List Char) : Bool :=
  match t with
  | [] => false
  | c :: rest => isUpperAZ c && !rest.isEmpty && rest.all (fun d => isUpperAZ d || isPyWS d)

/-- `r'^【.+】$'` on an already-stripped string: `【`, a non-empty middle with
no newline (`.` does not match `\n`), and a final `】`. -/
def headBracketTitle (t : List Char) : Bool :=
  match t with
  | [] => false
  | c :: rest =>
    c = '【' && 2 ≤ rest.length && rest.getLast? == some '】' &&
      rest.dropLast.all (fun d => d != '\n')

/-- `TextSplitter._is_heading` (lines 236-259). -/
def is_heading (text : List Char) : Bool :=
  let t := trim text
  headChapter t || headCjkEnum t || headNumDot t || headAllCaps t || headBracketTitle t

/-- `TextSplitter._is_list_item` (lines 261-281); the text is stripped first,
so each pattern's leading `\s*` matches nothing. -/
def is_list_item (text : List Char) : Bool :=
  let u := (trim text).dropWhile isPyWS
  let bullet :=
    match u with
    | c :: d :: _ => (c = '•' || c = '·' || c = '-') && isPyWS d
    | _ => false
  let numbered :=
    let ds := u.takeWhile isAsciiDigit
    !ds.isEmpty &&
      (match u.drop ds.length with
       | c :: d :: _ => (c = '.' || c = ')') && isPyWS d
       | _ => false)
  let lettered :=
    match u with
    | c :: d :: e :: _ => ('a' ≤ c && c ≤ 'z') && (d = '.' || d = ')') && isPyWS e
    | _ => false
  bullet || numbered || lettered

/-- The accumulation loop of `_merge_short_paragraphs` (lines 113-133):
`cur` is `current_paragraph`; a too-short buffer absorbs the next paragraph
(space-joined) unless that paragraph looks like a heading or list item. -/
def mergeAux (minLen : Nat) (cur : List Char) : List (List Char) → List (List Char)
  | [] => if cur.isEmpty then [] else [cur]
  | p :: rest =>
    let np := trim p
    if cur.length < minLen && !(is_heading np) && !(is_list_item np) then
      mergeAux minLen (cur ++ ' ' :: np) rest
    else
      (if cur.isEmpty then [] else [cur]) ++ mergeAux minLen np rest

/-- `TextSplitter._merge_short_paragraphs` (lines 99-135). -/
def merge_short_paragraphs (paragraphs : List (List Char)) (minLen : Nat) : List (List Char) :=
  match paragraphs with
  | [] => []
  | p :: rest => mergeAux minLen (trim p) rest

/-- Chinese sentence terminator or newline, the class `[。！？\n]`. -/
def isSentSep (c : Char) : Bool := c = '。' || c = '！' || c = '？' || c = '\n'

/-- `re.split(r'([。！？\n])', paragraph)` (line 150): alternating segments
and captured one-character separators; always of odd length, beginning and
ending with a (possibly empty) segment. -/
def splitCaptureAux : Nat → List Char → List (List Char)
  | 0, l => [l]
  | fuel + 1, l =>
    let pre := l.takeWhile (fun c => !(isSentSep c))
    match l.drop pre.length with
    | [] => [pre]
    | c :: rest => pre :: [c] :: splitCaptureAux fuel rest

/-- `re.split(r'([。！？\n])', paragraph)`. -/
def splitCapture (l : List Char) : List (List Char) := splitCaptureAux l.length l

/-- The recombination loop of `_split_long_paragraph` (lines 153-159):
`for i in range(0, len(sentences) - 1, 2)` pairs each segment with its
following separator and strips the pair.  Since `i + 1 < len(sentences)`
always holds inside that range, the loop's `else` arm is unreachable and a
lone trailing segment (the text after the last separator, or the whole text
when it has no separator) is never appended. -/
def combineSentences : List (List Char) → List (List Char)
  | a :: b :: rest => trim (a ++ b) :: combineSentences rest
  | _ => []

/-- `TextSplitter._force_split` (lines 193-209): consecutive windows of
`maxLength` characters.  Fuel-indexed; with `maxLength ≥ 1` every step
consumes at least one character (the repository only calls it with
`chunk_size = 500`). -/
def forceSplitAux : Nat → List Char → Nat → List (List Char)
  | 0, _, _ => []
  | _, [], _ => []
  | fuel + 1, l, m => l.take m :: forceSplitAux fuel (l.drop m) m

/-- `TextSplitter._force_split`. -/
def force_split (text : List Char) (maxLength : Nat) : List (List Char) :=
  forceSplitAux text.length text maxLength

/-- The greedy packing loop of `_split_long_paragraph` (lines 162-185):
skip empty sentences; extend the running chunk while it stays within
`chunkSize`; otherwise flush it (stripped), force-splitting any single
over-long sentence. -/
def packSentences (chunkSize : Nat) : List (List Char) → List Char → List (List Char)
  | [], cur => if cur.isEmpty then [] else [trim cur]
  | s :: rest, cur =>
    if s.isEmpty then packSentences chunkSize rest cur
    else if cur.length + s.length ≤ chunkSize then packSentences chunkSize rest (cur ++ s)
    else
      (if cur.isEmpty then [] else [trim cur]) ++
        (if chunkSize < s.length then force_split s chunkSize ++ packSentences chunkSize rest []
         else packSentences chunkSize rest s)

/-- `chunks[i-1][-overlap:] if len(chunks[i-1]) > overlap else chunks[i-1]`
(line 228): the last `ov` characters of the previous chunk. -/
def lastChars (ov : Nat) (prev : List Char) : List Char :=
  if ov < prev.length then prev.drop (prev.length - ov) else prev

/-- The loop of `_add_overlap` (lines 225-232): each later chunk is prefixed
with the previous original chunk's tail, joined by a space. -/
def addOverlapAux (ov : Nat) (prev : List Char) : List (List Char) → List (List Char)
  | [] => []
  | c :: rest => (lastChars ov prev ++ ' ' :: c) :: addOverlapAux ov c rest

/-- `TextSplitter._add_overlap` (lines 211-234). -/
def add_overlap (chunks : List (List Char)) (ov : Nat) : List (List Char) :=
  if ov = 0 || chunks.length ≤ 1 then chunks
  else
    match chunks with
    | [] => []
    | c :: rest => c :: addOverlapAux ov c rest

/-- `TextSplitter._split_long_paragraph` (lines 137-191). -/
def split_long_paragraph (chunkSize ov : Nat) (paragraph : List Char) : List (List Char) :=
  let chunks := packSentences chunkSize (combineSentences (splitCapture paragraph)) []
  if 0 < ov then add_overlap chunks ov else chunks

/-- Step 4 of `split_text` (lines 57-64): short merged paragraphs are
stripped and kept whole, long ones go through `_split_long_paragraph`. -/
def buildFinalChunks (chunkSize ov : Nat) : List (List Char) → List (List Char)
  | [] => []
  | p :: rest =>
    (if p.length ≤ chunkSize then [trim p] else split_long_paragraph chunkSize ov p)
      ++ buildFinalChunks chunkSize ov rest

/-- `TextSplitter.split_text` (lines 34-73). -/
def split_text (chunkSize ov : Nat) (text : List Char) : List (List Char) :=
  if text.isEmpty then []
  else
    let cleaned := preprocess text
    let merged := merge_short_paragraphs (splitNl2 cleaned) 50
    (buildFinalChunks chunkSize ov merged).filter
      (fun c => !c.isEmpty && decide (20 < (trim c).length))

/-! ### Concrete inputs used by counterexamples and witnesses -/

/-- The specification's chunking Scenario A input
`"高血压患者应该控制钠盐摄入,每日不超过5g"` (21 characters — the specification
miscounts it as 22; either way it is above the 20-character filter). -/
def scenarioChunkInput : List Char := "高血压患者应该控制钠盐摄入,每日不超过5g".data

/-- A 550-character paragraph made of a 50-character sentence followed by a
500-character sentence (both `。`-terminated): the second emitted chunk
receives a 50-character overlap plus a joining space. -/
def overlapExample : List Char :=
  List.replicate 49 'a' ++ ['。'] ++ List.replicate 499 'b' ++ ['。']

/-- A 22-character input that is almost entirely padding: it normalizes to
the single character `a`. -/
def wsPaddedExample : List Char := 'a' :: List.replicate 21 ' '

/-- A text-generator collaborator whose `_generate_raw_answer` always
raises. -/
def failingGen : TextGen := ⟨some (fun _ => .error "boom")⟩

set_option maxRecDepth 100000

/-! ### Supporting lemmas: evaluation metrics -/

theorem relevantCount_nil_right (r : List String) : relevantCount r [] = 0 := by
  simp [relevantCount]

theorem relevantCount_nil_left (g : List String) : relevantCount [] g = 0 := rfl

theorem relevantCount_le_left (r g : List String) : relevantCount r g ≤ r.length :=
  le_trans (List.length_filter_le _ _) (List.Sublist.length_le (List.dedup_sublist r))

theorem relevantCount_le_right (r g : List String) : relevantCount r g ≤ g.length := by
  have h1 : ((r.dedup).filter (fun d => decide (d ∈ g))).Nodup :=
    (List.nodup_dedup r).filter _
  have h2 : (r.dedup).filter (fun d => decide (d ∈ g)) ⊆ g := by
    intro x hx
    have := List.of_mem_filter hx
    simpa using this
  exact (h1.subperm h2).length_le

/-! ### Supporting lemmas: confidence -/

theorem foldl_pymin_nonneg (rest : List ℚ) (d : ℚ) (hd : 0 ≤ d)
    (h : ∀ x ∈ rest, 0 ≤ x) : 0 ≤ rest.foldl pymin d := by
  induction rest generalizing d with
  | nil => exact hd
  | cons x xs ih =>
    refine ih (pymin d x) ?_ (fun y hy => h y (List.mem_cons_of_mem _ hy))
    have hx : 0 ≤ x := h x (List.mem_cons_self _ _)
    unfold pymin
    split <;> assumption

theorem pymin_one_of_le {x : ℚ} (h : x ≤ 1) : pymin 1 x = x := by
  unfold pymin
  split
  · linarith
  · rfl

theorem pymax_le_one {x : ℚ} (h : x ≤ 1) : pymax 0 x ≤ 1 := by
  unfold pymax
  split
  · exact h
  · exact one_pos.le

/-! ### Supporting lemmas: medical chat -/

theorem filterLoop_eq_filter (thr : ℚ) (l : List (String × HitMeta × ℚ)) :
    filterLoop thr l =
      ((l.filter (fun h => decide (thr ≤ 1 - h.2.2))).map (·.1),
       (l.filter (fun h => decide (thr ≤ 1 - h.2.2))).map (·.2.1),
       (l.filter (fun h => decide (thr ≤ 1 - h.2.2))).map (·.2.2)) := by
  induction l with
  | nil => rfl
  | cons h rest ih =>
    obtain ⟨doc, meta, dist⟩ := h
    simp only [filterLoop, ih, List.filter_cons]
    by_cases hc : thr ≤ 1 - dist
    · simp [hc]
    · simp [hc]

theorem dedupRefsAux_eq_keepFirst (metas : List HitMeta) :
    ∀ seen : List String, (∀ m ∈ metas, m.id ≠ "") →
      dedupRefsAux seen metas =
        (keepFirstById (metas.filter (fun m => decide (m.id ∉ seen)))).map mkReference := by
  induction metas with
  | nil => intro seen _; simp [dedupRefsAux, keepFirstById]
  | cons m rest ih =>
    intro seen hids
    have hmid : m.id ≠ "" := hids m (List.mem_cons_self _ _)
    have hrest : ∀ x ∈ rest, x.id ≠ "" := fun x hx => hids x (List.mem_cons_of_mem _ hx)
    by_cases hseen : m.id ∈ seen
    · simp only [dedupRefsAux, List.filter_cons]
      rw [if_neg (by simp [hseen]), if_neg (by simp [hseen])]
      exact ih seen hrest
    · simp only [dedupRefsAux, List.filter_cons]
      rw [if_pos ⟨hmid, hseen⟩, if_pos (by simp [hseen])]
      rw [keepFirstById]
      simp only [List.map_cons, List.cons.injEq, List.filter_filter]
      refine ⟨trivial, ?_⟩
      rw [ih (m.id :: seen) hrest]
      congr 2
      apply List.filter_congr
      intro x hx
      simp only [List.mem_cons, decide_not]
      by_cases h1 : x.id = m.id <;> by_cases h2 : x.id ∈ seen <;> simp [h1, h2]

theorem dedupRefs_eq_keepFirst (metas : List HitMeta) (h : ∀ m ∈ metas, m.id ≠ "") :
    dedupRefs metas = (keepFirstById metas).map mkReference := by
  rw [dedupRefs, dedupRefsAux_eq_keepFirst metas [] h]
  simp

/-! ### Supporting lemmas: chunk length bounds -/

theorem trim_length_le (l : List Char) : (trim l).length ≤ l.length := by
  unfold trim
  calc ((l.dropWhile isPyWS).reverse.dropWhile isPyWS).reverse.length
      = ((l.dropWhile isPyWS).reverse.dropWhile isPyWS).length := List.length_reverse _
    _ ≤ (l.dropWhile isPyWS).reverse.length :=
        (List.dropWhile_suffix isPyWS).sublist.length_le
    _ = (l.dropWhile isPyWS).length := List.length_reverse _
    _ ≤ l.length := (List.dropWhile_suffix isPyWS).sublist.length_le

theorem forceSplitAux_mem_le (fuel : Nat) (l : List Char) (m : Nat) :
    ∀ c ∈ forceSplitAux fuel l m, c.length ≤ m := by
  induction fuel generalizing l with
  | zero => intro c hc; simp [forceSplitAux] at hc
  | succ fuel ih =>
    intro c hc
    match l with
    | [] => simp [forceSplitAux] at hc
    | a :: rest =>
      simp only [forceSplitAux, List.mem_cons] at hc
      rcases hc with h | h
      · subst h
        simp only [List.length_take]
        exact Nat.min_le_left m (a :: rest).length
      · exact ih _ c h

theorem packSentences_mem_le (n : Nat) (ss : List (List Char)) :
    ∀ cur : List Char, cur.length ≤ n → ∀ c ∈ packSentences n ss cur, c.length ≤ n := by
  induction ss with
  | nil =>
    intro cur hcur c hc
    simp only [packSentences] at hc
    split at hc
    · simp at hc
    · simp only [List.mem_singleton] at hc
      subst hc
      exact le_trans (trim_length_le cur) hcur
  | cons s rest ih =>
    intro cur hcur c hc
    simp only [packSentences] at hc
    split at hc
    · exact ih cur hcur c hc
    · split at hc
      · exact ih _ (by simpa using ‹cur.length + s.length ≤ n›) c hc
      · rw [List.mem_append] at hc
        rcases hc with h | h
        · split at h
          · simp at h
          · simp only [List.mem_singleton] at h
            subst h
            exact le_trans (trim_length_le cur) hcur
        · split at h
          · rw [List.mem_append] at h
            rcases h with h | h
            · exact forceSplitAux_mem_le _ _ _ c h
            · exact ih [] (by simp) c h
          · exact ih s (by omega) c h

theorem lastChars_length_le (ov : Nat) (prev : List Char) :
    (lastChars ov prev).length ≤ ov := by
  unfold lastChars
  split
  · rw [List.length_drop]
    omega
  · omega

theorem addOverlapAux_mem_le (ov n : Nat) (rest : List (List Char)) :
    ∀ prev : List Char, (∀ c ∈ rest, c.length ≤ n) →
      ∀ c ∈ addOverlapAux ov prev rest, c.length ≤ ov + 1 + n := by
  induction rest with
  | nil => intro prev _ c hc; simp [addOverlapAux] at hc
  | cons x xs ih =>
    intro prev hrest c hc
    simp only [addOverlapAux, List.mem_cons] at hc
    rcases hc with h | h
    · subst h
      have h1 := lastChars_length_le ov prev
      have h2 : x.length ≤ n := hrest x (List.mem_cons_self _ _)
      simp only [List.length_append, List.length_cons]
      omega
    · exact ih x (fun c hc => hrest c (List.mem_cons_of_mem _ hc)) c h

theorem add_overlap_mem_le (n ov : Nat) (chunks : List (List Char))
    (hall : ∀ c ∈ chunks, c.length ≤ n) :
    ∀ c ∈ add_overlap chunks ov, c.length ≤ n + 1 + ov := by
  intro c hc
  unfold add_overlap at hc
  split at hc
  · exact le_trans (hall c hc) (by omega)
  · match chunks, hc with
    | x :: xs, hc =>
      simp only [List.mem_cons] at hc
      rcases hc with h | h
      · subst h
        exact le_trans (hall c (List.mem_cons_self _ _)) (by omega)
      · have := addOverlapAux_mem_le ov n xs x
          (fun d hd => hall d (List.mem_cons_of_mem _ hd)) c h
        omega

theorem split_long_paragraph_mem_le (n ov : Nat) (p : List Char) :
    ∀ c ∈ split_long_paragraph n ov p, c.length ≤ n + 1 + ov := by
  intro c hc
  unfold split_long_paragraph at hc
  have hpack := packSentences_mem_le n (combineSentences (splitCapture p)) [] (by simp)
  split at hc
  · exact add_overlap_mem_le n ov _ hpack c hc
  · exact le_trans (hpack c hc) (by omega)

theorem buildFinalChunks_mem_le (n ov : Nat) (ps : List (List Char)) :
    ∀ c ∈ buildFinalChunks n ov ps, c.length ≤ n + 1 + ov := by
  induction ps with
  | nil => intro c hc; simp [buildFinalChunks] at hc
  | cons p rest ih =>
    intro c hc
    simp only [buildFinalChunks, List.mem_append] at hc
    rcases hc with h | h
    · split at h
      · simp only [List.mem_singleton] at h
        subst h
        exact le_trans (le_trans (trim_length_le p) (by omega : p.length ≤ n)) (by omega)
      · exact split_long_paragraph_mem_le n ov p c h
    · exact ih c h

/-! ### Supporting lemmas: trim and preprocessing -/

theorem dropWhile_head_false {p : Char → Bool} {l t : List Char} {c : Char}
    (h : l.dropWhile p = c :: t) : p c = false := by
  induction l with
  | nil => simp at h
  | cons a rest ih =>
    rw [List.dropWhile_cons] at h
    split at h
    · exact ih h
    · rename_i hna
      cases h
      simpa using hna

theorem dropWhile_idem (p : Char → Bool) (l : List Char) :
    (l.dropWhile p).dropWhile p = l.dropWhile p := by
  cases h : l.dropWhile p with
  | nil => rfl
  | cons c t =>
    rw [List.dropWhile_cons, dropWhile_head_false h]
    simp

theorem trim_idem (l : List Char) : trim (trim l) = trim l := by
  unfold trim
  set y := l.dropWhile isPyWS with hy
  set w := y.reverse.dropWhile isPyWS with hw
  have hstep : w.reverse.dropWhile isPyWS = w.reverse := by
    cases hrev : w.reverse with
    | nil => rfl
    | cons c t =>
      obtain ⟨s, hs⟩ := List.dropWhile_suffix (l := y.reverse) isPyWS
      have hyy : y = w.reverse ++ s.reverse := by
        have := congrArg List.reverse hs
        simpa [List.reverse_append] using this.symm
      have hyc : y.dropWhile isPyWS = y := dropWhile_idem isPyWS l
      have : y = c :: (t ++ s.reverse) := by rw [hyy, hrev]; simp
      have hc : isPyWS c = false := dropWhile_head_false (l := l) (by rw [← hy, this])
      rw [List.dropWhile_cons]
      simp [hc]
  rw [hstep, List.reverse_reverse, dropWhile_idem]

theorem trim_preprocess (text : List Char) : trim (preprocess text) = preprocess text :=
  trim_idem _

theorem dropWhile_all_nil {p : Char → Bool} {l : List Char} (h : ∀ c ∈ l, p c = true) :
    l.dropWhile p = [] := by
  rw [List.dropWhile_eq_nil_iff]
  exact fun x hx => by simp [h x hx]

theorem trim_all_ws {l : List Char} (h : ∀ c ∈ l, isPyWS c = true) : trim l = [] := by
  unfold trim
  rw [dropWhile_all_nil h]
  rfl

theorem collapseSpacesAux_all_ws {l : List Char} (h : ∀ c ∈ l, isPyWS c = true) :
    ∀ b, ∀ c ∈ collapseSpacesAux b l, isPyWS c = true := by
  induction l with
  | nil => intro b c hc; simp [collapseSpacesAux] at hc
  | cons a rest ih =>
    intro b c hc
    have ha := h a (List.mem_cons_self _ _)
    have hrest : ∀ c ∈ rest, isPyWS c = true := fun x hx => h x (List.mem_cons_of_mem _ hx)
    simp only [collapseSpacesAux] at hc
    split at hc
    · split at hc
      · exact ih hrest _ c hc
      · rcases List.mem_cons.mp hc with h' | h'
        · subst h'; rfl
        · exact ih hrest _ c h'
    · rcases List.mem_cons.mp hc with h' | h'
      · subst h'; exact ha
      · exact ih hrest _ c h'

theorem collapseNewlinesAux_all_ws (fuel : Nat) :
    ∀ l : List Char, (∀ c ∈ l, isPyWS c = true) →
      ∀ c ∈ collapseNewlinesAux fuel l, isPyWS c = true := by
  induction fuel with
  | zero => intro l _ c hc; simp [collapseNewlinesAux] at hc
  | succ fuel ih =>
    intro l h c hc
    cases l with
    | nil => simp [collapseNewlinesAux] at hc
    | cons a rest =>
      have hrest : ∀ c ∈ rest, isPyWS c = true := fun x hx => h x (List.mem_cons_of_mem _ hx)
      simp only [collapseNewlinesAux] at hc
      split at hc
      · rw [List.mem_append] at hc
        rcases hc with h' | h'
        · have := List.eq_of_mem_replicate h'
          subst this; rfl
        · exact ih _ (fun x hx => hrest x (List.drop_subset _ _ hx)) c h'
      · rcases List.mem_cons.mp hc with h' | h'
        · subst h'; exact h _ (List.mem_cons_self _ _)
        · exact ih rest hrest c h'

theorem removePageNumsAux_all_ws (fuel : Nat) :
    ∀ l : List Char, (∀ c ∈ l, isPyWS c = true) →
      ∀ c ∈ removePageNumsAux fuel l, isPyWS c = true := by
  induction fuel with
  | zero => intro l _ c hc; simp [removePageNumsAux] at hc
  | succ fuel ih =>
    intro l h c hc
    cases l with
    | nil => simp [removePageNumsAux] at hc
    | cons a rest =>
      simp only [removePageNumsAux] at hc
      split at hc
      · rcases List.mem_cons.mp hc with h' | h'
        · subst h'; rfl
        · exact ih _ (fun x hx => h x (List.drop_subset _ _ hx)) c h'
      · rcases List.mem_cons.mp hc with h' | h'
        · subst h'; exact h _ (List.mem_cons_self _ _)
        · exact ih rest (fun x hx => h x (List.mem_cons_of_mem _ hx)) c h'

theorem preprocess_all_ws {text : List Char} (h : ∀ c ∈ text, isPyWS c = true) :
    preprocess text = [] := by
  unfold preprocess
  apply trim_all_ws
  apply removePageNumsAux_all_ws
  intro c hc
  have hc2 := List.mem_of_mem_filter hc
  exact collapseNewlinesAux_all_ws _ _ (fun x hx => collapseSpacesAux_all_ws h false x hx) c hc2

theorem splitNl2Aux_single (fuel : Nat) :
    ∀ (l acc : List Char), l.length ≤ fuel → ¬ (['\n', '\n'] <:+: l) →
      splitNl2Aux fuel acc l = [acc.reverse ++ l] := by
  induction fuel with
  | zero =>
    intro l acc hlen _
    have : l = [] := List.length_eq_zero.mp (Nat.le_zero.mp hlen)
    subst this
    simp [splitNl2Aux]
  | succ fuel ih =>
    intro l acc hlen hinf
    cases l with
    | nil => simp [splitNl2Aux]
    | cons c rest =>
      have hrl : rest.length ≤ fuel := by
        simp only [List.length_cons] at hlen
        omega
      by_cases hcnl : c = '\n'
      · subst hcnl
        have hrun : rest.takeWhile (fun d => d = '\n') = [] := by
          cases rest with
          | nil => rfl
          | cons d rest2 =>
            by_cases hdnl : d = '\n'
            · exact absurd ⟨[], rest2, by simp [hdnl]⟩ hinf
            · simp [List.takeWhile_cons, hdnl]
        have hinf2 : ¬ (['\n', '\n'] <:+: rest) :=
          fun ⟨s, t, hst⟩ => hinf ⟨'\n' :: s, t, by simp [← hst]⟩
        rw [splitNl2Aux, if_pos rfl, hrun, if_neg (by simp)]
        rw [ih rest ('\n' :: acc) hrl hinf2]
        simp
      · have hinf2 : ¬ (['\n', '\n'] <:+: rest) :=
          fun ⟨s, t, hst⟩ => hinf ⟨c :: s, t, by simp [← hst]⟩
        rw [splitNl2Aux, if_neg hcnl]
        rw [ih rest (c :: acc) hrl hinf2]
        simp

theorem splitNl2_single (l : List Char) (hinf : ¬ (['\n', '\n'] <:+: l)) :
    splitNl2 l = [l] := by
  unfold splitNl2
  rw [splitNl2Aux_single l.length l [] le_rfl hinf]
  simp

/-! ### Claim theorems -/

/-- C4: for every retrieved-document list and ground-truth list,
`calculate_metrics` returns exactly the specification's precision
(`|setIntersection| / |retrieved|`, `0.0` on empty retrieved), recall
(`|setIntersection| / |groundTruth|`, `0.0` on empty ground truth) and F1
(`2·p·r/(p+r)`, `0.0` when `p + r = 0`), with the intersection taken as a
set (duplicates never double-counted in the numerator) while the precision
denominator is the raw retrieved-list length. -/
theorem metrics_match_spec (retrieved ground : List String) :
    calculate_metrics retrieved ground =
      (precisionSpec retrieved ground, recallSpec retrieved ground, f1Spec retrieved ground) := by
  by_cases hr : retrieved = []
  · subst hr
    simp [calculate_metrics, precisionSpec, recallSpec, f1Spec, relevantCount_nil_left]
  by_cases hg : ground = []
  · subst hg
    simp [calculate_metrics, precisionSpec, recallSpec, f1Spec, relevantCount_nil_right, hr]
  · simp [calculate_metrics, precisionSpec, recallSpec, f1Spec, hr, hg]

/-- C7: for every retrieved-document list and ground-truth list, the F1
value computed by `calculate_metrics` lies in `[0, 1]`, and it is `0` if and
only if both the computed precision and the computed recall are `0`. -/
theorem f1_range_and_zero_iff (retrieved ground : List String) :
    0 ≤ (calculate_metrics retrieved ground).2.2 ∧
    (calculate_metrics retrieved ground).2.2 ≤ 1 ∧
    ((calculate_metrics retrieved ground).2.2 = 0 ↔
      (calculate_metrics retrieved ground).1 = 0 ∧ (calculate_metrics retrieved ground).2.1 = 0) := by
  by_cases hr : retrieved = []
  · simp [calculate_metrics, hr]
  by_cases hg : ground = []
  · simp [calculate_metrics, hr, hg]
  · have hm : (0 : ℚ) < retrieved.length := by
      exact_mod_cast Nat.pos_of_ne_zero (fun h => hr (List.length_eq_zero.mp h))
    have hn : (0 : ℚ) < ground.length := by
      exact_mod_cast Nat.pos_of_ne_zero (fun h => hg (List.length_eq_zero.mp h))
    have hk0 : (0 : ℚ) ≤ relevantCount retrieved ground := by positivity
    have hkm : (relevantCount retrieved ground : ℚ) ≤ retrieved.length := by
      exact_mod_cast relevantCount_le_left retrieved ground
    have hkn : (relevantCount retrieved ground : ℚ) ≤ ground.length := by
      exact_mod_cast relevantCount_le_right retrieved ground
    simp only [calculate_metrics, List.isEmpty_iff, hr, hg, if_false, if_neg]
    set k : ℚ := (relevantCount retrieved ground : ℚ) with hk
    set m : ℚ := (retrieved.length : ℚ) with hmdef
    set n : ℚ := (ground.length : ℚ) with hndef
    have hp0 : 0 ≤ k / m := div_nonneg hk0 hm.le
    have hq0 : 0 ≤ k / n := div_nonneg hk0 hn.le
    have hp1 : k / m ≤ 1 := (div_le_one hm).mpr hkm
    have hq1 : k / n ≤ 1 := (div_le_one hn).mpr hkn
    by_cases hpr : k / m + k / n = 0
    · have hp : k / m = 0 := by linarith
      have hq : k / n = 0 := by linarith
      simp [hpr, hp, hq]
    · have hprpos : 0 < k / m + k / n := lt_of_le_of_ne (by linarith) (Ne.symm hpr)
      simp only [hpr, if_false, if_neg hpr]
      refine ⟨by positivity, ?_, ?_⟩
      · rw [div_le_one hprpos]
        nlinarith [mul_nonneg hp0 (sub_nonneg.mpr hq1), mul_nonneg hq0 (sub_nonneg.mpr hp1)]
      · rw [div_eq_zero_iff]
        constructor
        · rintro (h | h)
          · have := mul_eq_zero.mp (by linarith : (k / m) * (k / n) = 0)
            have hkey : k / m = 0 ↔ k / n = 0 := by
              rw [div_eq_zero_iff, div_eq_zero_iff]
              constructor
              · rintro (h' | h')
                · exact Or.inl h'
                · exact absurd h' hm.ne'
              · rintro (h' | h')
                · exact Or.inl h'
                · exact absurd h' hn.ne'
            rcases this with h' | h'
            · exact ⟨h', hkey.mp h'⟩
            · exact ⟨hkey.mpr h', h'⟩
          · exact absurd h hpr
        · rintro ⟨h1, h2⟩
          exact Or.inl (by rw [h1, h2]; ring)

/-- C2: for every non-empty list of (non-negative, per the data model)
distances, `calculate_confidence` equals the specification's formula
`round(min(1.0, clamp(1 − minDistance/2, 0, 1) + bonus), 2)` with a `+0.1`
bonus when at least two distances are strictly below `0.5`; in particular
`[0.1, 0.2, 0.9]` yields confidence `1.0`. -/
theorem confidence_matches_spec :
    (∀ distances : List ℚ, distances ≠ [] → (∀ d ∈ distances, 0 ≤ d) →
      calculate_confidence distances = confidenceSpec distances) ∧
    calculate_confidence [1/10, 2/10, 9/10] = 1 := by
  constructor
  · intro ds hne hnn
    match ds with
    | d :: rest =>
      have hm : 0 ≤ rest.foldl pymin d :=
        foldl_pymin_nonneg rest d (hnn d (List.mem_cons_self _ _))
          (fun x hx => hnn x (List.mem_cons_of_mem _ hx))
      simp only [calculate_confidence, confidenceSpec]
      have h1 : (1 : ℚ) - rest.foldl pymin d / 2 ≤ 1 := by linarith
      rw [pymin_one_of_le h1]
      by_cases hc : 2 ≤ ((d :: rest).filter (fun x => decide (x < 1/2))).length
      · simp only [if_pos hc]
      · simp only [if_neg hc, add_zero]
        rw [pymin_one_of_le (pymax_le_one h1)]
  · norm_num [calculate_confidence, pymin, pymax, pyRound2, pyRoundInt, List.filter, List.foldl]

/-- C2 witness: the specification's Scenario E distances satisfy the
equivalence. -/
theorem confidence_matches_spec_witness :
    calculate_confidence [1/10, 2/10, 9/10] = confidenceSpec [1/10, 2/10, 9/10] :=
  confidence_matches_spec.1 [1/10, 2/10, 9/10] (by simp)
    (by intro d hd; fin_cases hd <;> norm_num)

/-- C6: the filtering loop of `medical_chat` keeps a hit exactly when
`1 − distance ≥ similarityThreshold`, preserving input order (it equals a
`filter` followed by projections), and both an empty hit list and a fully
filtered-out hit list produce the sentinel response with confidence `0.0`
and no references, not an error. -/
theorem filter_and_empty_sentinel
    (genAnswer : String → List String → String) (query : String)
    (maxResults : Nat) (thr : ℚ)
    (documents : List String) (metadatas : List HitMeta) (distances : List ℚ) :
    (filterLoop thr (zip3 documents metadatas distances) =
      (((zip3 documents metadatas distances).filter (fun h => decide (thr ≤ 1 - h.2.2))).map (·.1),
       ((zip3 documents metadatas distances).filter (fun h => decide (thr ≤ 1 - h.2.2))).map (·.2.1),
       ((zip3 documents metadatas distances).filter (fun h => decide (thr ≤ 1 - h.2.2))).map (·.2.2))) ∧
    ((documents = [] ∨ (filterLoop thr (zip3 documents metadatas distances)).1 = []) →
      (medical_chat genAnswer query maxResults thr documents metadatas distances).confidence = 0 ∧
      (medical_chat genAnswer query maxResults thr documents metadatas distances).references = []) := by
  refine ⟨filterLoop_eq_filter thr _, ?_⟩
  rintro (h | h)
  · subst h
    simp [medical_chat]
  · by_cases hd : documents = []
    · subst hd
      simp [medical_chat]
    · simp only [medical_chat, List.isEmpty_iff, hd, if_neg]
      simp [hd, h, List.isEmpty_iff]

/-- C6 witness: the empty hit list yields the zero-confidence, empty
response. -/
theorem filter_and_empty_sentinel_witness :
    (medical_chat (fun _ _ => "") "q" 5 (1/5) [] [] []).confidence = 0 ∧
    (medical_chat (fun _ _ => "") "q" 5 (1/5) [] [] []).references = [] :=
  (filter_and_empty_sentinel (fun _ _ => "") "q" 5 (1/5) [] [] []).2 (Or.inl rfl)

/-- C9: when hits survive the filter (and, as everywhere in this repository,
every hit's source-document id is non-empty), the citation list is exactly
the first-seen-order first occurrence per `sourceDocId` of the filtered
metadata, truncated by `maxResults`; the confidence is computed from the
untruncated, undeduplicated filtered distance list and the answer from the
full filtered document list. -/
theorem citation_dedup_frame
    (genAnswer : String → List String → String) (query : String)
    (maxResults : Nat) (thr : ℚ)
    (documents : List String) (metadatas : List HitMeta) (distances : List ℚ)
    (hids : ∀ m ∈ (filterLoop thr (zip3 documents metadatas distances)).2.1, m.id ≠ "")
    (hdocs : documents ≠ [])
    (hfd : (filterLoop thr (zip3 documents metadatas distances)).1 ≠ []) :
    (medical_chat genAnswer query maxResults thr documents metadatas distances).references =
      ((keepFirstById ((filterLoop thr (zip3 documents metadatas distances)).2.1)).map
        mkReference).take maxResults ∧
    (medical_chat genAnswer query maxResults thr documents metadatas distances).confidence =
      calculate_confidence ((filterLoop thr (zip3 documents metadatas distances)).2.2) ∧
    (medical_chat genAnswer query maxResults thr documents metadatas distances).answer =
      genAnswer query ((filterLoop thr (zip3 documents metadatas distances)).1) := by
  simp only [medical_chat, List.isEmpty_iff, hdocs, if_neg]
  rcases hfl : filterLoop thr (zip3 documents metadatas distances) with ⟨fd, fm, fq⟩
  rw [hfl] at hids hfd
  simp only at hids hfd ⊢
  simp only [hfd, if_neg, List.isEmpty_iff]
  rw [dedupRefs_eq_keepFirst fm hids]
  simp [hdocs, hfd]

/-- C9 witness: a single passing hit with id `doc_001`. -/
theorem citation_dedup_frame_witness :
    (medical_chat (fun _ _ => "ans") "q" 5 (1/5) ["d"] [⟨"c", "dept", "doc_001"⟩]
        [1/10]).references =
      ((keepFirstById ((filterLoop (1/5)
          (zip3 ["d"] [⟨"c", "dept", "doc_001"⟩] [1/10])).2.1)).map mkReference).take 5 ∧
    (medical_chat (fun _ _ => "ans") "q" 5 (1/5) ["d"] [⟨"c", "dept", "doc_001"⟩]
        [1/10]).confidence =
      calculate_confidence ((filterLoop (1/5)
        (zip3 ["d"] [⟨"c", "dept", "doc_001"⟩] [1/10])).2.2) ∧
    (medical_chat (fun _ _ => "ans") "q" 5 (1/5) ["d"] [⟨"c", "dept", "doc_001"⟩]
        [1/10]).answer =
      (fun _ _ => "ans" : String → List String → String) "q" ((filterLoop (1/5)
        (zip3 ["d"] [⟨"c", "dept", "doc_001"⟩] [1/10])).1) :=
  citation_dedup_frame (fun _ _ => "ans") "q" 5 (1/5) ["d"] [⟨"c", "dept", "doc_001"⟩] [1/10]
    (by norm_num [filterLoop, zip3]; decide)
    (by simp)
    (by norm_num [filterLoop, zip3])

/-- C5: with the AI audit requested, the base precision/recall/F1 of the
returned result always equal `calculate_metrics` and are identical to an
evaluation without the AI pass; and under any of the three audit failure
modes (collaborator raising or lacking the method, no brace-delimited JSON,
malformed JSON) the AI fields degrade to the `"N/A"` sentinel with an empty
relevance-label mapping and a diagnostic comment.  The embedding of
`_ai_evaluate` is a total function: no failure escapes the evaluation
call. -/
theorem ai_failure_degrades (llm : TextGen)
    (jsonParse : List Char → Option (List (String × JsonVal)))
    (query : String) (retrieved ground : List String) :
    (evaluate_retrieval (some llm) jsonParse query retrieved ground true).precision =
      (calculate_metrics retrieved ground).1 ∧
    (evaluate_retrieval (some llm) jsonParse query retrieved ground true).recallScore =
      (calculate_metrics retrieved ground).2.1 ∧
    (evaluate_retrieval (some llm) jsonParse query retrieved ground true).f1_score =
      (calculate_metrics retrieved ground).2.2 ∧
    (evaluate_retrieval (some llm) jsonParse query retrieved ground true).precision =
      (evaluate_retrieval (some llm) jsonParse query retrieved ground false).precision ∧
    (evaluate_retrieval (some llm) jsonParse query retrieved ground true).recallScore =
      (evaluate_retrieval (some llm) jsonParse query retrieved ground false).recallScore ∧
    (evaluate_retrieval (some llm) jsonParse query retrieved ground true).f1_score =
      (evaluate_retrieval (some llm) jsonParse query retrieved ground false).f1_score ∧
    (aiPathFails llm jsonParse query retrieved ground →
      (evaluate_retrieval (some llm) jsonParse query retrieved ground true).ai_rating =
        some (.str "N/A") ∧
      (evaluate_retrieval (some llm) jsonParse query retrieved ground true).ai_relevance_labels =
        some (.obj []) ∧
      ((evaluate_retrieval (some llm) jsonParse query retrieved ground true).ai_comment).isSome =
        true) := by
  refine ⟨rfl, rfl, rfl, rfl, rfl, rfl, ?_⟩
  intro hfail
  rcases hfail with hnone | ⟨gen, hgen, hrest⟩
  · simp [evaluate_retrieval, ai_evaluate, hnone]
  · rcases hrest with ⟨e, herr⟩ | ⟨resp, hok, hparse⟩
    · simp [evaluate_retrieval, ai_evaluate, hgen, herr]
    · rcases hparse with hx | ⟨j, hj, hp⟩
      · simp [evaluate_retrieval, ai_evaluate, parse_ai_response, hgen, hok, hx]
      · simp [evaluate_retrieval, ai_evaluate, parse_ai_response, hgen, hok, hj, hp]

/-- C5 witness: a collaborator that raises on every call. -/
theorem ai_failure_degrades_witness :
    (evaluate_retrieval (some failingGen) (fun _ => none) "q" [] [] true).ai_rating =
      some (.str "N/A") ∧
    (evaluate_retrieval (some failingGen) (fun _ => none) "q" [] [] true).ai_relevance_labels =
      some (.obj []) ∧
    ((evaluate_retrieval (some failingGen) (fun _ => none) "q" [] [] true).ai_comment).isSome =
      true :=
  (ai_failure_degrades failingGen (fun _ => none) "q" [] []).2.2.2.2.2.2
    (Or.inr ⟨_, rfl, Or.inl ⟨"boom", rfl⟩⟩)

/-- C10: with the repository's bundled `LLMService` injected as the
collaborator, the audit path degrades to the `"N/A"` sentinel with empty
relevance labels for every query and document lists, because the class does
not define the `_generate_raw_answer` method the audit invokes. -/
theorem bundled_llm_audit_na
    (jsonParse : List Char → Option (List (String × JsonVal)))
    (query : String) (retrieved ground : List String) :
    (ai_evaluate theLLMService jsonParse query retrieved ground).1 = .str "N/A" ∧
    (ai_evaluate theLLMService jsonParse query retrieved ground).2.2 = .obj [] ∧
    (evaluate_retrieval (some theLLMService) jsonParse query retrieved ground true).ai_rating =
      some (.str "N/A") ∧
    (evaluate_retrieval (some theLLMService) jsonParse query retrieved ground
        true).ai_relevance_labels =
      some (.obj []) := by
  refine ⟨rfl, rfl, ?_, ?_⟩ <;> simp [evaluate_retrieval, ai_evaluate, theLLMService]

/-- C1 (amended): every chunk of `split_text` with the default configuration
is non-empty, has trimmed length strictly greater than 20, and has length at
most `chunkSize + chunkOverlap + 1 = 551` — one more than the claimed 550,
because `_add_overlap` joins the prepended overlap with a space. -/
theorem chunk_bounds_amended (text : List Char) (c : List Char)
    (hc : c ∈ split_text 500 50 text) :
    c ≠ [] ∧ 20 < (trim c).length ∧ c.length ≤ 551 := by
  unfold split_text at hc
  split at hc
  · simp at hc
  · rw [List.mem_filter] at hc
    obtain ⟨hmem, hpred⟩ := hc
    simp only [Bool.and_eq_true, Bool.not_eq_true', List.isEmpty_eq_false,
      decide_eq_true_eq] at hpred
    obtain ⟨hne, hlen⟩ := hpred
    exact ⟨hne, hlen, buildFinalChunks_mem_le 500 50 _ c hmem⟩

/-- C1 counterexample: on a 550-character paragraph of two sentences of 50
and 500 characters, the second chunk is 551 characters long
(50-character overlap + joining space + 500-character sentence), exceeding
`chunkSize + chunkOverlap = 550`. -/
theorem chunk_length_can_exceed_550 :
    ∃ c ∈ split_text 500 50 overlapExample, ¬ (c.length ≤ 500 + 50) := by decide

/-- C1 witness: the Scenario A input is a chunk of its own output and
satisfies all three bounds. -/
theorem chunk_bounds_amended_witness :
    scenarioChunkInput ≠ [] ∧ 20 < (trim scenarioChunkInput).length ∧
      scenarioChunkInput.length ≤ 551 :=
  chunk_bounds_amended scenarioChunkInput scenarioChunkInput (by decide)

/-- C3: evaluation at the failing input.  A 501-character paragraph with no
sentence terminator exceeds `chunkSize`, so `_split_long_paragraph` runs;
its recombination loop `for i in range(0, len(sentences) - 1, 2)` never
appends the segment after the last separator (here the whole paragraph), so
the text is silently and entirely lost: `split_text` returns `[]`. -/
theorem long_paragraph_tail_lost :
    split_text 500 50 (List.replicate 501 'a') = [] ∧
      (List.replicate 501 'a').length = 501 :=
  ⟨by decide, by decide⟩

/-- C8 counterexample: the 22-character input `'a'` followed by 21 spaces
satisfies `20 < length ≤ 500`, yet `split_text` returns `[]` (its normalized
trimmed form is the single character `a`, discarded by the 20-character
filter), not a single chunk. -/
theorem single_chunk_claim_fails :
    20 < wsPaddedExample.length ∧ wsPaddedExample.length ≤ 500 ∧
      split_text 500 50 wsPaddedExample = [] :=
  ⟨by decide, by decide, by decide⟩

/-- C8 (amended): every empty or whitespace-only input maps to the empty
sequence; and every input whose normalized (preprocessed) form contains no
blank-line paragraph break and has length in `(20, 500]` maps to exactly the
one-element sequence holding that normalized, trimmed input. -/
theorem single_chunk_amended :
    (∀ text : List Char, (∀ c ∈ text, isPyWS c = true) → split_text 500 50 text = []) ∧
    (∀ text : List Char, ¬ (['\n', '\n'] <:+: preprocess text) →
      20 < (preprocess text).length → (preprocess text).length ≤ 500 →
      split_text 500 50 text = [preprocess text]) := by
  constructor
  · intro text hws
    by_cases hempty : text = []
    · subst hempty; rfl
    · have hpre : preprocess text = [] := preprocess_all_ws hws
      unfold split_text
      rw [if_neg (by simpa [List.isEmpty_iff] using hempty)]
      rw [hpre]
      rfl
  · intro text hinf hlen hle
    have hempty : ¬ text = [] := by
      intro h
      subst h
      simp [show preprocess [] = [] from rfl] at hlen
    have hne : preprocess text ≠ [] := by
      intro h
      rw [h] at hlen
      simp at hlen
    have hstep : split_text 500 50 text =
        List.filter (fun c => !c.isEmpty && decide (20 < (trim c).length))
          (buildFinalChunks 500 50
            (merge_short_paragraphs (splitNl2 (preprocess text)) 50)) := by
      unfold split_text
      rw [if_neg (by simpa [List.isEmpty_iff] using hempty)]
    rw [hstep, splitNl2_single _ hinf]
    simp only [merge_short_paragraphs]
    rw [trim_preprocess]
    simp only [mergeAux]
    rw [if_neg (by simpa [List.isEmpty_iff] using hne)]
    simp only [buildFinalChunks]
    rw [if_pos hle, trim_preprocess]
    simp only [List.append_nil, List.filter_cons, List.filter_nil]
    rw [if_pos]
    simp only [Bool.and_eq_true, Bool.not_eq_true', List.isEmpty_eq_false, decide_eq_true_eq]
    exact ⟨hne, by rwa [trim_preprocess]⟩

/-- C8 witness: Scenario A yields its own (already normalized) text as the
single chunk, and a whitespace-only input yields the empty sequence. -/
theorem single_chunk_amended_witness :
    split_text 500 50 scenarioChunkInput = [preprocess scenarioChunkInput] ∧
      split_text 500 50 [' '] = [] :=
  ⟨single_chunk_amended.2 scenarioChunkInput (by decide) (by decide) (by decide),
   single_chunk_amended.1 [' '] (by decide)⟩

end EnterpriseRag
